import Mathlib

/-!
Verification of the Kevin-Calendar voice session core.

This file gives a shallow embedding of the parts of the repository that the
spec's testable properties talk about:

* the data model (`src/types.ts`),
* the two tool-call executors (the full one in `src/unnamed/part_008`,
  `connectToGeminiLive.onmessage`, and the simplified one in `src/App.tsx`,
  `startActiveMode.onmessage` — the latter carries the source comment
  "simplified here for brevity but needs to be full"),
* the playback scheduler (`nextStartTimeRef` handling in the audio branch of
  `onmessage`),
* the controller's stop / restart paths (`stopAllAi`, `startWaitingMode`, the
  `startActiveMode` connection-failure fallback in `src/App.tsx`),
* the audio codec (`createBlob`, `decode`, `decodeAudioData` in `src/App.tsx`),
  including the byte-level base64 transport encoding.

JavaScript-specific behaviour is modelled explicitly: string-keyed objects
become ordered association lists, `crypto.randomUUID()` becomes a fresh-id
counter threaded through the executor state, `x || default` on strings treats
the empty string as falsy, a method call on a missing (`undefined`) argument
raises an exception (modelled with `Except`), and interpolating a missing
value into an object key yields the string "undefined".
-/

namespace KevinCalendar

/-- Lower-case a string character by character (JS `String.prototype.toLowerCase`
on the ASCII names used by the app). -/
def lowerStr (s : String) : String :=
  String.mk (s.data.map Char.toLower)

/-- JS `haystack.includes(needle)` on character lists: `needle` occurs as a
contiguous substring (the empty needle always occurs). -/
def charsIncludes (needle : List Char) : List Char → Bool
  | [] => needle.isEmpty
  | c :: rest => needle.isPrefixOf (c :: rest) || charsIncludes needle rest

/-- JS `s.includes(sub)`. -/
def strIncludes (s sub : String) : Bool :=
  charsIncludes sub.data s.data

/-- JS `opt || dflt` for string-valued expressions: `undefined` and the empty
string are falsy. -/
def jsOr (o : Option String) (dflt : String) : String :=
  match o with
  | some s => if s = "" then dflt else s
  | none => dflt

/-- Model of `crypto.randomUUID()`: the n-th id drawn from the executor's
fresh-id counter. -/
def freshId (n : Nat) : String :=
  "uuid-" ++ toString n

/-- Reading a required argument where the JS code immediately calls a method on
it (`(args as any).x.toLowerCase()`): a missing argument throws a TypeError,
modelled as `Except.error ()`. -/
def req (o : Option String) : Except Unit String :=
  match o with
  | some s => Except.ok s
  | none => Except.error ()

/-- `src/types.ts` `Task`. -/
structure Task where
  id : String
  projectId : String
  title : String
  description : String
deriving Repr, DecidableEq

/-- `src/types.ts` `Project`. -/
structure Project where
  id : String
  name : String
  color : String
  details : String
  tasks : List Task
deriving Repr, DecidableEq

/-- `src/types.ts` `CalendarData`: a string-keyed JS object mapping a date
string to a list of task ids; modelled as an ordered association list with
unique keys (JS objects preserve insertion order for string keys). -/
abbrev Calendar := List (String × List String)

/-- Assoc-list read, JS `cal[date]` (`none` = `undefined`). -/
def calGet (cal : Calendar) (d : String) : Option (List String) :=
  match cal with
  | [] => none
  | (k, v) :: rest => if k = d then some v else calGet rest d

/-- Assoc-list write, JS `cal[date] = v`: overwrite in place, or append a new
key at the end (JS insertion order). -/
def calSet (cal : Calendar) (d : String) (v : List String) : Calendar :=
  match cal with
  | [] => [(d, v)]
  | (k, w) :: rest => if k = d then (d, v) :: rest else (k, w) :: calSet rest d v

/-- The executors' purge loop
`Object.keys(cal).forEach(date => { cal[date] = cal[date].filter(tid => !taskIds.includes(tid)); if (cal[date].length === 0) delete cal[date]; })`. -/
def calPurge (cal : Calendar) (taskIds : List String) : Calendar :=
  (cal.map (fun e => (e.1, e.2.filter (fun tid => !(taskIds.contains tid))))).filter
    (fun e => !e.2.isEmpty)

/-- The single-id variant used by `deleteTask`:
`cal[date].filter(tid => tid !== t.id)`, deleting emptied entries. -/
def calRemoveId (cal : Calendar) (taskId : String) : Calendar :=
  (cal.map (fun e => (e.1, e.2.filter (fun tid => !(tid = taskId))))).filter
    (fun e => !e.2.isEmpty)

/-- The dynamic `args` object of a tool call; every field is optional on the
wire. -/
structure Args where
  projectName : Option String := none
  taskTitle : Option String := none
  description : Option String := none
  color : Option String := none
  date : Option String := none
deriving Repr, DecidableEq

/-- A tool call `{id, name, args}` issued by the remote assistant. -/
structure ToolCall where
  id : String
  name : String
  args : Args
deriving Repr, DecidableEq

/-- A tool result: the executors push `{id, name, response: {result: {status}}}`. -/
structure ToolResult where
  id : String
  name : String
  status : String
deriving Repr, DecidableEq

/-- The state a tool-call batch operates on: the `tempState` snapshot
(`projects` and `calendar`), the `expandedProjectIdRef` selection, and the
fresh-id counter modelling `crypto.randomUUID()`. -/
structure ExecState where
  projects : List Project
  calendar : Calendar
  expanded : Option String
  nextId : Nat
deriving Repr, DecidableEq

/-- Remove the first element satisfying the predicate
(JS `findIndex` followed by `splice(idx, 1)`). -/
def spliceFirst {α : Type} (f : α → Bool) : List α → List α
  | [] => []
  | x :: rest => if f x then rest else x :: spliceFirst f rest

/-- Push a task onto the project with the given id
(JS `project.tasks.push(newTask)` through the shared reference). -/
def pushTask (projects : List Project) (pid : String) (t : Task) : List Project :=
  projects.map (fun p => if p.id = pid then { p with tasks := p.tasks ++ [t] } else p)

/-- First task across projects (in project order) whose lower-cased title
contains `tTitle`; the `for (const p of projects) { find }` loop of
`deleteTask` / `scheduleTask` / `removeTaskFromCalendar`. -/
def findTask (projects : List Project) (tTitle : String) : Option Task :=
  match projects with
  | [] => none
  | p :: rest =>
    match p.tasks.find? (fun tk => strIncludes (lowerStr tk.title) tTitle) with
    | some t => some t
    | none => findTask rest tTitle

/-- The `colors` table of the full executor's `createProject`. -/
def colorMap (c : String) : Option String :=
  if c = "red" then some "#ef4444"
  else if c = "blue" then some "#3b82f6"
  else if c = "green" then some "#10b981"
  else if c = "yellow" then some "#f59e0b"
  else if c = "purple" then some "#8b5cf6"
  else if c = "orange" then some "#f97316"
  else if c = "pink" then some "#ec4899"
  else if c = "gray" then some "#6b7280"
  else none

/-- `deleteTask` body of the full executor: walk the projects in order, find the
first one containing a matching task, purge that task id from the calendar and
splice the task out; `none` when no project matches. -/
def deleteTaskGo (tTitle : String) (cal : Calendar) :
    List Project → Option (List Project × Calendar × String)
  | [] => none
  | p :: rest =>
    match p.tasks.find? (fun tk => strIncludes (lowerStr tk.title) tTitle) with
    | some t =>
      some
        ({ p with tasks := spliceFirst (fun tk => strIncludes (lowerStr tk.title) tTitle) p.tasks }
            :: rest,
          calRemoveId cal t.id,
          "Deleted task: " ++ t.title)
    | none =>
      (deleteTaskGo tTitle cal rest).map (fun r => (p :: r.1, r.2.1, r.2.2))

/-- Dispatch of the full executor (`src/unnamed/part_008`, lines 502–661): the
`if`/`else if` chain inside the `try` block. An `Except.error` models a thrown
JS exception (all throw sites precede any mutation of `tempState`). The final
`else` case models a name with no matching branch: `result` keeps its initial
value `{status: 'ok'}` and the state is untouched. -/
def dispatchFull (name : String) (args : Args) (st : ExecState) :
    Except Unit (ExecState × String) :=
  if name = "createProject" then
    let pName := args.projectName.getD "undefined"
    let desc := jsOr args.description ""
    let color0 := jsOr args.color "#3b82f6"
    let color := match colorMap (lowerStr color0) with
      | some hex => hex
      | none => color0
    let pid := freshId st.nextId
    let newProject : Project := ⟨pid, pName, color, desc, []⟩
    Except.ok
      ({ st with
          projects := st.projects ++ [newProject]
          expanded := some pid
          nextId := st.nextId + 1 },
        "Created project: " ++ pName)
  else if name = "createTask" then do
    let pn ← req args.projectName
    let pName := lowerStr pn
    let tTitle := args.taskTitle.getD "undefined"
    let desc := jsOr args.description ""
    match st.projects.find? (fun p => strIncludes (lowerStr p.name) pName) with
    | some project =>
      let newTask : Task := ⟨freshId st.nextId, project.id, tTitle, desc⟩
      Except.ok
        ({ st with
            projects := pushTask st.projects project.id newTask
            nextId := st.nextId + 1 },
          "Added task \"" ++ tTitle ++ "\" to project \"" ++ project.name ++ "\"")
    | none => Except.ok (st, "Project \"" ++ pName ++ "\" not found")
  else if name = "selectProject" then do
    let pn ← req args.projectName
    let pName := lowerStr pn
    match st.projects.find? (fun p => strIncludes (lowerStr p.name) pName) with
    | some project =>
      Except.ok ({ st with expanded := some project.id }, "Selected project: " ++ project.name)
    | none => Except.ok (st, "Project not found")
  else if name = "deleteProject" then do
    let pn ← req args.projectName
    let pName := lowerStr pn
    match st.projects.find? (fun p => strIncludes (lowerStr p.name) pName) with
    | some project =>
      let taskIds := project.tasks.map (fun t => t.id)
      Except.ok
        ({ st with
            calendar := calPurge st.calendar taskIds
            projects := spliceFirst (fun p => strIncludes (lowerStr p.name) pName) st.projects },
          "Deleted project: " ++ project.name)
    | none => Except.ok (st, "Project not found")
  else if name = "deleteCurrentProject" then
    match st.expanded with
    | some currentId =>
      match st.projects.find? (fun p => p.id = currentId) with
      | some project =>
        let taskIds := project.tasks.map (fun t => t.id)
        Except.ok
          ({ st with
              calendar := calPurge st.calendar taskIds
              projects := spliceFirst (fun p => p.id = currentId) st.projects
              expanded := none },
            "Deleted selected project: " ++ project.name)
      | none => Except.ok (st, "Project ID found but data missing")
    | none => Except.ok (st, "No project is currently selected")
  else if name = "deleteTask" then do
    let tt ← req args.taskTitle
    let tTitle := lowerStr tt
    match deleteTaskGo tTitle st.calendar st.projects with
    | some r => Except.ok ({ st with projects := r.1, calendar := r.2.1 }, r.2.2)
    | none => Except.ok (st, "Task not found")
  else if name = "scheduleTask" then do
    let tt ← req args.taskTitle
    let tTitle := lowerStr tt
    let date := args.date.getD "undefined"
    match findTask st.projects tTitle with
    | some foundTask =>
      let currentTasks := (calGet st.calendar date).getD []
      let cal :=
        if currentTasks.contains foundTask.id then st.calendar
        else calSet st.calendar date (currentTasks ++ [foundTask.id])
      Except.ok ({ st with calendar := cal },
        "Scheduled " ++ foundTask.title ++ " for " ++ date)
    | none => Except.ok (st, "Task not found")
  else if name = "removeTaskFromCalendar" then do
    let tt ← req args.taskTitle
    let tTitle := lowerStr tt
    let date := args.date.getD "undefined"
    match findTask st.projects tTitle with
    | some foundTask =>
      let cal :=
        match calGet st.calendar date with
        | some entry => calSet st.calendar date (entry.filter (fun tid => !(tid = foundTask.id)))
        | none => st.calendar
      Except.ok ({ st with calendar := cal },
        "Removed " ++ foundTask.title ++ " from " ++ date)
    | none => Except.ok (st, "Task not found")
  else
    Except.ok (st, "ok")

/-- One call of the full executor: dispatch inside `try`; the `catch` turns a
thrown exception into the status `'Error executing command'` with the state as
it stood (no throw site mutates first, so the input state). A result is pushed
in every case. -/
def execCallFull (c : ToolCall) (st : ExecState) : ExecState × ToolResult :=
  match dispatchFull c.name c.args st with
  | Except.ok r => (r.1, ⟨c.id, c.name, r.2⟩)
  | Except.error _ => (st, ⟨c.id, c.name, "Error executing command"⟩)

/-- The batch loop of the full executor: one `tempState` snapshot threaded
through all calls in order, one result per call in the same order; the final
state is the single commit (`setData(tempState)`) at batch end. -/
def runBatchFull : List ToolCall → ExecState → ExecState × List ToolResult
  | [], st => (st, [])
  | c :: cs, st =>
    let r := execCallFull c st
    let rest := runBatchFull cs r.1
    (rest.1, r.2 :: rest.2)

/-- The project lookup of the `src/App.tsx` `createTask` / `selectProject`
handlers:
`projects.find(x => x.name.toLowerCase().includes(args.projectName.toLowerCase()))`.
The `projectName` read sits inside the `find` callback, so a missing argument
throws only when the callback actually runs — on an empty project list the
callback never runs, no exception is thrown, and the lookup yields
`undefined` (`none`). -/
def findProjectByOptName (projects : List Project) (pn : Option String) :
    Except Unit (Option Project) :=
  match projects with
  | [] => Except.ok none
  | p :: rest =>
    match pn with
    | none => Except.error ()
    | some s =>
      if strIncludes (lowerStr p.name) (lowerStr s) then Except.ok (some p)
      else findProjectByOptName rest pn

/-- Dispatch of the simplified executor in `src/App.tsx` (lines 446–488). The
handler chain covers only `createProject`, `createTask`, `deleteCurrentProject`,
`selectProject` and `scheduleTask`; every other name (including the schema
names `deleteProject`, `deleteTask`, `removeTaskFromCalendar`) falls through
with the initial `result = {status: 'ok'}`. `selectProject`, `scheduleTask` and
`deleteCurrentProject` have no `else` branch, so a failed lookup also leaves
`result` at `'ok'`. `deleteCurrentProject` does not purge the calendar.
`createTask` and `selectProject` read `projectName` inside the `find` callback
(`findProjectByOptName`), while `scheduleTask` reads `taskTitle` up front
(`const tTitle = (args as any).taskTitle.toLowerCase()`). -/
def dispatchApp (name : String) (args : Args) (st : ExecState) :
    Except Unit (ExecState × String) :=
  if name = "createProject" then
    let pid := freshId st.nextId
    let newP : Project :=
      ⟨pid, args.projectName.getD "undefined", jsOr args.color "#3b82f6",
        jsOr args.description "", []⟩
    Except.ok
      ({ st with
          projects := st.projects ++ [newP]
          expanded := some pid
          nextId := st.nextId + 1 },
        "Created")
  else if name = "createTask" then do
    let po ← findProjectByOptName st.projects args.projectName
    match po with
    | some p =>
      let newTask : Task := ⟨freshId st.nextId, p.id, args.taskTitle.getD "undefined",
        jsOr args.description ""⟩
      Except.ok
        ({ st with projects := pushTask st.projects p.id newTask, nextId := st.nextId + 1 },
          "Created task")
    | none => Except.ok (st, "Project not found")
  else if name = "deleteCurrentProject" then
    match st.expanded with
    | some currentId =>
      if (st.projects.find? (fun x => x.id = currentId)).isSome then
        Except.ok
          ({ st with
              projects := spliceFirst (fun x => x.id = currentId) st.projects
              expanded := none },
            "Deleted")
      else Except.ok (st, "ok")
    | none => Except.ok (st, "ok")
  else if name = "selectProject" then do
    let po ← findProjectByOptName st.projects args.projectName
    match po with
    | some p => Except.ok ({ st with expanded := some p.id }, "Selected")
    | none => Except.ok (st, "ok")
  else if name = "scheduleTask" then do
    let tt ← req args.taskTitle
    let tTitle := lowerStr tt
    let date := args.date.getD "undefined"
    match findTask st.projects tTitle with
    | some t =>
      let exist := (calGet st.calendar date).getD []
      let cal :=
        if exist.contains t.id then st.calendar
        else calSet st.calendar date (exist ++ [t.id])
      Except.ok ({ st with calendar := cal }, "Scheduled")
    | none => Except.ok (st, "ok")
  else
    Except.ok (st, "ok")

/-- One call of the `src/App.tsx` executor. `endSession` is handled outside the
`try` and mutates nothing; for the rest, a thrown exception is caught by the
empty `catch (e) { console.error(e); }`, leaving `result` at its initial value
`{status: 'ok'}` (every throw site runs before any mutation). -/
def execCallApp (c : ToolCall) (st : ExecState) : ExecState × ToolResult :=
  if c.name = "endSession" then (st, ⟨c.id, c.name, "ok"⟩)
  else
    match dispatchApp c.name c.args st with
    | Except.ok r => (r.1, ⟨c.id, c.name, r.2⟩)
    | Except.error _ => (st, ⟨c.id, c.name, "ok"⟩)

/-- The batch loop of the `src/App.tsx` executor (same structure as the full
one: one snapshot, chained in order, committed once at the end). -/
def runBatchApp : List ToolCall → ExecState → ExecState × List ToolResult
  | [], st => (st, [])
  | c :: cs, st =>
    let r := execCallApp c st
    let rest := runBatchApp cs r.1
    (rest.1, r.2 :: rest.2)

/-! ### Voice session controller (`src/App.tsx`) -/

/-- The `AiMode` union of `src/App.tsx` (`'OFF' | 'WAITING' | 'ACTIVE'`). -/
inductive Mode where
  | OFF
  | WAITING
  | ACTIVE
deriving Repr, DecidableEq

/-- The controller's mutable refs in `src/App.tsx`: `aiModeRef`, whether the
resource refs are populated, the in-flight playback sources (`sourcesRef`, as
source ids), the playback offset `nextStartTimeRef`, and a log of every source
on which `.stop()` has been called. -/
structure CtrlState where
  mode : Mode
  recognition : Bool
  session : Bool
  mediaStream : Bool
  audioCtx : Bool
  inputCtx : Bool
  silenceTimer : Bool
  sources : List Nat
  nextStart : ℚ
  stopCalls : List Nat
deriving Repr, DecidableEq

/-- `stopAllAi` (`src/App.tsx` lines 254–292): aborts recognition, closes the
session, stops all media tracks, closes both audio contexts, clears the silence
timer, calls `.stop()` on every in-flight source and clears the set, and sets
the mode to `OFF`. Note: `nextStartTimeRef` is left untouched. -/
def stopAllAi (st : CtrlState) : CtrlState :=
  { st with
      recognition := false
      session := false
      mediaStream := false
      audioCtx := false
      inputCtx := false
      silenceTimer := false
      stopCalls := st.stopCalls ++ st.sources
      sources := []
      mode := Mode.OFF }

/-- `startWaitingMode` (`src/App.tsx` lines 294–349): aborts any previous
recognition and session, stops media tracks, clears the silence timer, sets the
mode to `WAITING` — unconditionally, with no check of a "no longer wanted"
flag — and starts a new recognizer. When `SpeechRecognition` is unavailable it
alerts and falls back to `stopAllAi`. -/
def startWaitingMode (speechSupported : Bool) (st : CtrlState) : CtrlState :=
  let st1 :=
    { st with
        recognition := false
        session := false
        mediaStream := false
        silenceTimer := false
        mode := Mode.WAITING }
  if speechSupported then { st1 with recognition := true }
  else stopAllAi st1

/-- The `catch` fallback of `startActiveMode` (`src/App.tsx` lines 533–536):
on a connection failure it calls `startWaitingMode()` unconditionally — it does
not consult `aiModeRef` before re-entering the listening state. -/
def connectFailFallback (st : CtrlState) : CtrlState :=
  startWaitingMode true st

/-- The audio branch of `onmessage` (`src/App.tsx` lines 500–513):
`nextStart := max(nextStart, ctx.currentTime)`, start the source at that
offset, advance `nextStart` by the chunk duration, and add the source to the
in-flight set. Returns the new state and the offset the chunk was started at. -/
def scheduleChunk (st : CtrlState) (now dur : ℚ) (srcId : Nat) : CtrlState × ℚ :=
  let start := max st.nextStart now
  ({ st with nextStart := start + dur, sources := st.sources ++ [srcId] }, start)

/-- The same playback-scheduling law iterated over a sequence of chunks, each
given as `(clockNow at arrival, duration)`; returns the `(start, duration)`
pair computed for each chunk, in arrival order. -/
def schedPairs (nextStart : ℚ) : List (ℚ × ℚ) → List (ℚ × ℚ)
  | [] => []
  | chunk :: rest =>
    let start := max nextStart chunk.1
    (start, chunk.2) :: schedPairs (start + chunk.2) rest

/-! ### Audio codec (`src/App.tsx` lines 30–78) -/

/-- The base64 alphabet used by `btoa`/`atob`. -/
def b64Alphabet : List Char :=
  "ABCDEFGHIJKLMNOPQRSTUVWXYZabcdefghijklmnopqrstuvwxyz0123456789+/".data

/-- Character for a 6-bit group. -/
def sextetChar (n : Nat) : Char :=
  b64Alphabet.getD n '?'

/-- 6-bit group for a character (its index in the alphabet). -/
def charSextet (c : Char) : Nat :=
  b64Alphabet.indexOf c

/-- `btoa`: standard base64 of a byte sequence, processing three bytes at a
time, padding a trailing group with `'='`. -/
def b64encode : List Nat → List Char
  | b1 :: b2 :: b3 :: rest =>
    sextetChar (b1 / 4) :: sextetChar ((b1 % 4) * 16 + b2 / 16) ::
      sextetChar ((b2 % 16) * 4 + b3 / 64) :: sextetChar (b3 % 64) :: b64encode rest
  | [b1, b2] =>
    [sextetChar (b1 / 4), sextetChar ((b1 % 4) * 16 + b2 / 16),
      sextetChar ((b2 % 16) * 4), '=']
  | [b1] =>
    [sextetChar (b1 / 4), sextetChar ((b1 % 4) * 16), '=', '=']
  | [] => []

/-- `atob`: inverse of `b64encode`, honouring `'='` padding. -/
def b64decode : List Char → List Nat
  | c1 :: c2 :: c3 :: c4 :: rest =>
    if c3 = '=' then [charSextet c1 * 4 + charSextet c2 / 16]
    else if c4 = '=' then
      [charSextet c1 * 4 + charSextet c2 / 16,
        (charSextet c2 % 16) * 16 + charSextet c3 / 4]
    else
      (charSextet c1 * 4 + charSextet c2 / 16) ::
        ((charSextet c2 % 16) * 16 + charSextet c3 / 4) ::
        ((charSextet c3 % 4) * 64 + charSextet c4) :: b64decode rest
  | _ => []

/-- JS truncation toward zero (the integer conversion step of assigning a
number into an `Int16Array`). -/
def jsTrunc (q : ℚ) : Int :=
  if 0 ≤ q then ⌊q⌋ else ⌈q⌉

/-- ECMAScript `ToInt16`: reduce modulo 2^16 into [0, 2^16), then interpret
values ≥ 2^15 as negative. -/
def toInt16 (n : Int) : Int :=
  let u := n % 65536
  if 32768 ≤ u then u - 65536 else u

/-- `createBlob`'s per-sample conversion `int16[i] = data[i] * 32768` (an
`Int16Array` element assignment truncates and wraps). -/
def encodeSample (x : ℚ) : Int :=
  toInt16 (jsTrunc (x * 32768))

/-- The two little-endian bytes of an int16 value, as seen through
`new Uint8Array(int16.buffer)`. -/
def int16ToBytes (v : Int) : List Nat :=
  let u := (v % 65536).toNat
  [u % 256, u / 256]

/-- The byte stream of `createBlob`: each sample to int16, serialized
little-endian in order. -/
def sampleBytes (samples : List ℚ) : List Nat :=
  (samples.map (fun x => int16ToBytes (encodeSample x))).flatten

/-- The `GenAIBlob` value returned by `createBlob`. -/
structure GenAIBlob where
  data : String
  mimeType : String
deriving Repr, DecidableEq

/-- `createBlob` (`src/App.tsx` lines 30–49): samples → int16 PCM → bytes →
base64, tagged with the fixed 16 kHz outbound sample rate. -/
def createBlob (samples : List ℚ) : GenAIBlob :=
  ⟨String.mk (b64encode (sampleBytes samples)), "audio/pcm;rate=16000"⟩

/-- `decode` (`src/App.tsx` lines 51–59): base64 string back to bytes. -/
def decodeB64 (base64 : String) : List Nat :=
  b64decode base64.data

/-- `new Int16Array(data.buffer)`: consecutive little-endian byte pairs as
signed 16-bit values (a trailing odd byte is not part of any element). -/
def bytesToInt16 : List Nat → List Int
  | b0 :: b1 :: rest =>
    (let u := b0 + 256 * b1
      if 32768 ≤ u then (u : Int) - 65536 else (u : Int)) :: bytesToInt16 rest
  | _ => []

/-- `decodeAudioData` (`src/App.tsx` lines 61–78) in the mono configuration
used at both call sites (`numChannels = 1`):
`channelData[i] = dataInt16[i] / 32768.0`. -/
def decodeAudioData (bytes : List Nat) : List ℚ :=
  (bytesToInt16 bytes).map (fun v : Int => (v : ℚ) / 32768)

/-! ### Concrete scenarios used by the claims -/

/-- The empty snapshot: no projects, empty calendar, nothing selected. -/
def emptyExec : ExecState := ⟨[], [], none, 0⟩

/-- The batch `[createProject("Acme"), createTask("Acme","Draft")]`. -/
def acmeBatch : List ToolCall :=
  [⟨"c1", "createProject", { projectName := some "Acme" }⟩,
    ⟨"c2", "createTask", { projectName := some "Acme", taskTitle := some "Draft" }⟩]

/-- Snapshot for the delete-purge scenario: project `P` ("Acme", selected) owns
task `t1`; the calendar has `{"2025-01-01": [t1, t2]}`. -/
def stDel : ExecState :=
  ⟨[⟨"P", "Acme", "#3b82f6", "", [⟨"t1", "P", "Draft", ""⟩]⟩],
    [("2025-01-01", ["t1", "t2"])], some "P", 0⟩

/-- A `createTask` call whose `args` object carries no fields: the JS handler
immediately calls `.toLowerCase()` on `undefined` and throws. -/
def throwingCall : ToolCall := ⟨"42", "createTask", {}⟩

/-- Snapshot for the not-found scenarios: one project "Alpha" (selected) with
one task "Report"; nothing in it matches the lookup string "zzz". -/
def stAlpha : ExecState :=
  ⟨[⟨"p1", "Alpha", "#3b82f6", "", [⟨"t1", "p1", "Report", ""⟩]⟩],
    [("2025-02-02", ["t1"])], some "p1", 5⟩

/-- `scheduleTask("Report", "2025-01-01")` against `stAlpha`. -/
def schedReport : ToolCall :=
  ⟨"s1", "scheduleTask", { taskTitle := some "Report", date := some "2025-01-01" }⟩

/-- A controller state mid-session: ACTIVE, all resources held, two in-flight
playback sources, `nextStart` advanced to 5 seconds. -/
def stCtrl : CtrlState :=
  ⟨Mode.ACTIVE, true, true, true, true, true, true, [1, 2], 5, []⟩

/-- The controller state right after `startActiveMode` has set the mode to
`ACTIVE` and is awaiting `ai.live.connect` (no resources acquired yet). -/
def stPendingConnect : CtrlState :=
  ⟨Mode.ACTIVE, false, false, false, false, false, false, [], 0, []⟩

/-! ### Helper lemmas -/

theorem execCallFull_idname (c : ToolCall) (st : ExecState) :
    (execCallFull c st).2.id = c.id ∧ (execCallFull c st).2.name = c.name := by
  unfold execCallFull
  cases dispatchFull c.name c.args st <;> exact ⟨rfl, rfl⟩

theorem execCallApp_idname (c : ToolCall) (st : ExecState) :
    (execCallApp c st).2.id = c.id ∧ (execCallApp c st).2.name = c.name := by
  unfold execCallApp
  by_cases h : c.name = "endSession"
  · simp [h]
  · simp only [h, if_false]
    cases dispatchApp c.name c.args st <;> exact ⟨rfl, rfl⟩

theorem runBatchFull_idnames (calls : List ToolCall) (st : ExecState) :
    (runBatchFull calls st).2.map (fun r => (r.id, r.name))
      = calls.map (fun c => (c.id, c.name)) := by
  induction calls generalizing st with
  | nil => rfl
  | cons c cs ih =>
    have hc := execCallFull_idname c st
    simp [runBatchFull, ih, hc.1, hc.2]

theorem runBatchApp_idnames (calls : List ToolCall) (st : ExecState) :
    (runBatchApp calls st).2.map (fun r => (r.id, r.name))
      = calls.map (fun c => (c.id, c.name)) := by
  induction calls generalizing st with
  | nil => rfl
  | cons c cs ih =>
    have hc := execCallApp_idname c st
    simp [runBatchApp, ih, hc.1, hc.2]

theorem calGet_calSet_self (cal : Calendar) (d : String) (v : List String) :
    calGet (calSet cal d v) d = some v := by
  induction cal with
  | nil => simp [calSet, calGet]
  | cons e rest ih =>
    obtain ⟨k, w⟩ := e
    by_cases h : k = d
    · simp [calSet, calGet, h]
    · simp [calSet, calGet, h, ih]

theorem contains_append_right (l : List String) (x : String) :
    (l ++ [x]).contains x = true := by
  induction l with
  | nil => simp
  | cons y ys ih => simp [ih]

/-- Applying the full executor's `scheduleTask` twice in a row is the same as
applying it once (idempotence at the level of the whole state and result). -/
theorem schedFull_idem (i : String) (a : Args) (st : ExecState) :
    execCallFull ⟨i, "scheduleTask", a⟩ ((execCallFull ⟨i, "scheduleTask", a⟩ st).1)
      = execCallFull ⟨i, "scheduleTask", a⟩ st := by
  obtain ⟨pn, tt0, ds, co, da⟩ := a
  cases tt0 with
  | none => rfl
  | some tt =>
    simp only [execCallFull, dispatchFull, String.reduceEq, reduceIte, req, bind,
      Except.instMonad, Except.bind]
    cases hf : findTask st.projects (lowerStr tt) with
    | none => simp only [hf]
    | some t =>
      simp only [hf]
      by_cases hc : ((calGet st.calendar (da.getD "undefined")).getD []).contains t.id = true
      · simp only [hc, if_true]
      · simp only [hc, if_false, calGet_calSet_self, Option.getD_some, contains_append_right,
          if_true]
        simp [hf]
        intro hmem
        rw [calGet_calSet_self] at hmem
        simp at hmem

/-- Applying the `src/App.tsx` executor's `scheduleTask` twice in a row is the
same as applying it once. -/
theorem schedApp_idem (i : String) (a : Args) (st : ExecState) :
    execCallApp ⟨i, "scheduleTask", a⟩ ((execCallApp ⟨i, "scheduleTask", a⟩ st).1)
      = execCallApp ⟨i, "scheduleTask", a⟩ st := by
  obtain ⟨pn, tt0, ds, co, da⟩ := a
  cases tt0 with
  | none => rfl
  | some tt =>
    simp only [execCallApp, dispatchApp, String.reduceEq, reduceIte, req, bind,
      Except.instMonad, Except.bind]
    cases hf : findTask st.projects (lowerStr tt) with
    | none => simp only [hf]
    | some t =>
      simp only [hf]
      by_cases hc : ((calGet st.calendar (da.getD "undefined")).getD []).contains t.id = true
      · simp only [hc, if_true]
      · simp only [hc, if_false, calGet_calSet_self, Option.getD_some, contains_append_right,
          if_true]
        simp [hf]
        intro hmem
        rw [calGet_calSet_self] at hmem
        simp at hmem

/-- Gapless scheduling: with nonnegative durations, consecutive scheduled
chunks satisfy `previous start + previous duration ≤ next start` (hence starts
are non-decreasing). -/
theorem schedPairs_gapless :
    ∀ (chunks : List (ℚ × ℚ)) (t0 : ℚ), (∀ c ∈ chunks, 0 ≤ c.2) →
      List.Chain' (fun a b => a.1 + a.2 ≤ b.1 ∧ a.1 ≤ b.1) (schedPairs t0 chunks)
  | [], _, _ => List.chain'_nil
  | [_], _, _ => List.chain'_singleton _
  | c :: c2 :: rest, t0, h => by
    have hd : 0 ≤ c.2 := h c (by simp)
    have hrest : ∀ x ∈ c2 :: rest, 0 ≤ x.2 := fun x hx => h x (by simp [hx])
    have ih := schedPairs_gapless (c2 :: rest) (max t0 c.1 + c.2) hrest
    simp only [schedPairs] at ih ⊢
    rw [List.chain'_cons]
    refine ⟨⟨le_max_left _ _, ?_⟩, ih⟩
    calc max t0 c.1 ≤ max t0 c.1 + c.2 := by linarith
      _ ≤ max (max t0 c.1 + c.2) c2.1 := le_max_left _ _

/-! ### Claim theorems -/

/-- Claim C1: batch chaining with a single commit — the batch loop threads one
snapshot through all calls in order (each later call runs on the state produced
by the earlier ones; the final state is the unique commit), and the batch
`[createProject("Acme"), createTask("Acme","Draft")]` against the empty
snapshot yields exactly one project "Acme" containing exactly one task "Draft",
in both the full executor and the `src/App.tsx` executor. -/
theorem batch_chaining_single_commit :
    (∀ (st : ExecState) (c : ToolCall) (cs : List ToolCall),
        (runBatchFull (c :: cs) st).1 = (runBatchFull cs (execCallFull c st).1).1
          ∧ (runBatchApp (c :: cs) st).1 = (runBatchApp cs (execCallApp c st).1).1)
      ∧ (runBatchFull acmeBatch emptyExec).1.projects.map
          (fun p => (p.name, p.tasks.map (fun t => t.title))) = [("Acme", ["Draft"])]
      ∧ (runBatchApp acmeBatch emptyExec).1.projects.map
          (fun p => (p.name, p.tasks.map (fun t => t.title))) = [("Acme", ["Draft"])] :=
  ⟨fun _ _ _ => ⟨rfl, rfl⟩, by decide, by decide⟩

/-- Claim C2 (code bug): in the full executor, `deleteProject("Acme")` on
`stDel` removes the project and purges `t1` from the calendar (leaving
`{"2025-01-01": [t2]}`) exactly as claimed — but it does NOT clear the
selection reference even though it pointed at the deleted project; and the
`src/App.tsx` `deleteCurrentProject` handler (the source comment marks the
block "simplified here for brevity but needs to be full") removes the project
without purging its task ids from the calendar at all. -/
theorem deleteProject_purge_divergence :
    (execCallFull ⟨"c1", "deleteProject", { projectName := some "Acme" }⟩ stDel).1.calendar
        = [("2025-01-01", ["t2"])]
      ∧ (execCallFull ⟨"c1", "deleteProject", { projectName := some "Acme" }⟩ stDel).1.projects
        = []
      ∧ (execCallFull ⟨"c1", "deleteProject", { projectName := some "Acme" }⟩ stDel).1.expanded
        = some "P"
      ∧ (execCallApp ⟨"c1", "deleteCurrentProject", {}⟩ stDel).1.projects = []
      ∧ (execCallApp ⟨"c1", "deleteCurrentProject", {}⟩ stDel).1.calendar
        = [("2025-01-01", ["t1", "t2"])] := by
  refine ⟨by decide, by decide, by decide, by decide, by decide⟩

/-- Claim C3 (code bug): both executors always produce exactly one result per
call, in batch order, carrying the call's id and name — but on an internal
exception only the full executor converts it to the descriptive status
"Error executing command"; the `src/App.tsx` executor's empty `catch` leaves
the status at the default "ok". The exception here is `createTask` with a
missing `projectName` argument: the full executor reads
`projectName.toLowerCase()` up front and throws on any snapshot, while in
`src/App.tsx` the read sits inside the `find` callback, so the TypeError is
thrown (and swallowed as "ok") only on a snapshot with at least one project
(`stAlpha`); on the empty snapshot the callback never runs and the App
executor reports "Project not found" without any exception. -/
theorem toolResults_order_and_error_status :
    (∀ (calls : List ToolCall) (st : ExecState),
        (runBatchFull calls st).2.length = calls.length
          ∧ (runBatchFull calls st).2.map (fun r => (r.id, r.name))
            = calls.map (fun c => (c.id, c.name))
          ∧ (runBatchApp calls st).2.length = calls.length
          ∧ (runBatchApp calls st).2.map (fun r => (r.id, r.name))
            = calls.map (fun c => (c.id, c.name)))
      ∧ execCallFull throwingCall stAlpha
        = (stAlpha, ⟨"42", "createTask", "Error executing command"⟩)
      ∧ execCallApp throwingCall stAlpha = (stAlpha, ⟨"42", "createTask", "ok"⟩)
      ∧ execCallApp throwingCall emptyExec
        = (emptyExec, ⟨"42", "createTask", "Project not found"⟩) := by
  refine ⟨fun calls st => ⟨?_, runBatchFull_idnames calls st, ?_, runBatchApp_idnames calls st⟩,
    by decide, by decide, by decide⟩
  · simpa using congrArg List.length (runBatchFull_idnames calls st)
  · simpa using congrArg List.length (runBatchApp_idnames calls st)

/-- Claim C4 (code bug): on a snapshot where nothing matches "zzz", the full
executor leaves the snapshot untouched and reports the documented not-found
statuses for every lookup-based call — but the `src/App.tsx` executor (the
"simplified here for brevity" block) reports the default "ok" for failed
`selectProject` and `scheduleTask` lookups instead of a not-found status
(the snapshot is still unmutated). -/
theorem notFound_atomicity_divergence :
    execCallApp ⟨"s1", "selectProject", { projectName := some "zzz" }⟩ stAlpha
        = (stAlpha, ⟨"s1", "selectProject", "ok"⟩)
      ∧ execCallApp ⟨"s2", "scheduleTask", { taskTitle := some "zzz", date := some "2025-01-01" }⟩
          stAlpha
        = (stAlpha, ⟨"s2", "scheduleTask", "ok"⟩)
      ∧ execCallFull ⟨"s1", "selectProject", { projectName := some "zzz" }⟩ stAlpha
        = (stAlpha, ⟨"s1", "selectProject", "Project not found"⟩)
      ∧ execCallFull ⟨"s2", "scheduleTask", { taskTitle := some "zzz", date := some "2025-01-01" }⟩
          stAlpha
        = (stAlpha, ⟨"s2", "scheduleTask", "Task not found"⟩)
      ∧ execCallFull ⟨"s3", "createTask", { projectName := some "zzz", taskTitle := some "T" }⟩
          stAlpha
        = (stAlpha, ⟨"s3", "createTask", "Project \"zzz\" not found"⟩)
      ∧ execCallFull ⟨"s4", "deleteProject", { projectName := some "zzz" }⟩ stAlpha
        = (stAlpha, ⟨"s4", "deleteProject", "Project not found"⟩)
      ∧ execCallFull ⟨"s5", "deleteTask", { taskTitle := some "zzz" }⟩ stAlpha
        = (stAlpha, ⟨"s5", "deleteTask", "Task not found"⟩) := by
  refine ⟨by decide, by decide, by decide, by decide, by decide, by decide, by decide⟩

/-- Claim C5 (code bug): a user stop (`stopAllAi`) issued while the
WAITING→ACTIVE transition is awaiting `ai.live.connect` sets the mode to OFF,
but when the pending connect then fails, the `startActiveMode` catch fallback
(`src/App.tsx` lines 533–536) calls `startWaitingMode` unconditionally —
without checking the no-longer-wanted state — so the controller re-enters
WAITING instead of staying OFF. -/
theorem stop_during_transition_reenters_waiting :
    (stopAllAi stPendingConnect).mode = Mode.OFF
      ∧ (connectFailFallback (stopAllAi stPendingConnect)).mode = Mode.WAITING
      ∧ Mode.WAITING ≠ Mode.OFF := by
  refine ⟨by decide, by decide, by decide⟩

/-- Claim C7 (amended): `stopAllAi`, from every controller state, calls
`.stop()` on every in-flight playback source and empties the in-flight set, and
sets the mode to OFF — but it does not reset `nextStart`: the offset keeps its
prior value, so the next chunk is scheduled at `max(prior nextStart, clock)`
rather than from a reset offset. -/
theorem hardStop_flushes_sources_keeps_nextStart (st : CtrlState) :
    (stopAllAi st).sources = []
      ∧ (stopAllAi st).stopCalls = st.stopCalls ++ st.sources
      ∧ (stopAllAi st).mode = Mode.OFF
      ∧ (stopAllAi st).nextStart = st.nextStart
      ∧ ∀ now dur srcId, (scheduleChunk (stopAllAi st) now dur srcId).2 = max st.nextStart now :=
  ⟨rfl, rfl, rfl, rfl, fun _ _ _ => rfl⟩

/-- Claim C7 counterexample: hard-stopping the concrete mid-session state
`stCtrl` (whose `nextStart` is 5) leaves `nextStart` at 5, not at the reset
value 0 (`nextStartTimeRef` is initialized to 0), and the next chunk scheduled
at clock time 0 starts at offset 5, not at the reset offset. -/
theorem hardStop_nextStart_not_reset :
    (stopAllAi stCtrl).nextStart = 5
      ∧ ((5 : ℚ) ≠ 0)
      ∧ (scheduleChunk (stopAllAi stCtrl) 0 1 3).2 = 5 := by
  refine ⟨by decide, by decide, by decide⟩

/-- Claim C10: a tool call whose name has no branch in the handler chain —
in `src/App.tsx` this includes the schema-declared `deleteProject`,
`deleteTask` and `removeTaskFromCalendar` — leaves the snapshot unchanged and
returns the default `{status: 'ok'}` result: the unknown call is silently
reported as a success. The same fall-through holds in the full executor for
names outside its chain (e.g. `endSession`). -/
theorem unknown_tool_silent_ok (c : ToolCall) (st : ExecState) :
    (c.name ∉ (["endSession", "createProject", "createTask", "deleteCurrentProject",
          "selectProject", "scheduleTask"] : List String) →
        execCallApp c st = (st, ⟨c.id, c.name, "ok"⟩))
      ∧ (c.name ∉ (["createProject", "createTask", "selectProject", "deleteProject",
          "deleteCurrentProject", "deleteTask", "scheduleTask",
          "removeTaskFromCalendar"] : List String) →
        execCallFull c st = (st, ⟨c.id, c.name, "ok"⟩)) := by
  constructor
  · intro h
    simp only [List.mem_cons, List.not_mem_nil, or_false, not_or] at h
    obtain ⟨h1, h2, h3, h4, h5, h6⟩ := h
    simp [execCallApp, dispatchApp, h1, h2, h3, h4, h5, h6]
  · intro h
    simp only [List.mem_cons, List.not_mem_nil, or_false, not_or] at h
    obtain ⟨h1, h2, h3, h4, h5, h6, h7, h8⟩ := h
    simp [execCallFull, dispatchFull, h1, h2, h3, h4, h5, h6, h7, h8]

/-- Witness for C10: the concrete schema-declared names `deleteProject`
(missing from the `src/App.tsx` chain) and `endSession` (missing from the full
chain) are silently answered with "ok" and no state change. -/
theorem unknown_tool_silent_ok_witness :
    execCallApp ⟨"d1", "deleteProject", { projectName := some "X" }⟩ stAlpha
        = (stAlpha, ⟨"d1", "deleteProject", "ok"⟩)
      ∧ execCallFull ⟨"d2", "endSession", {}⟩ stAlpha
        = (stAlpha, ⟨"d2", "endSession", "ok"⟩) :=
  ⟨(unknown_tool_silent_ok _ _).1 (by decide), (unknown_tool_silent_ok _ _).2 (by decide)⟩

/-- Claim C6: for chunks of nonnegative durations arriving in order, the
playback law `start = max(nextStart, clockNow); nextStart = start + duration`
produces start offsets such that each chunk's start is at least the previous
chunk's start plus the previous chunk's duration, and the starts are
non-decreasing (gapless, no overlap). Chunks are given as
`(clockNow at arrival, duration)` pairs; `schedPairs` returns the computed
`(start, duration)` pairs. -/
theorem playback_starts_gapless (t0 : ℚ) (chunks : List (ℚ × ℚ))
    (h : ∀ c ∈ chunks, 0 ≤ c.2) :
    List.Chain' (fun a b => a.1 + a.2 ≤ b.1 ∧ a.1 ≤ b.1) (schedPairs t0 chunks) :=
  schedPairs_gapless chunks t0 h

/-- Witness for C6 at the concrete chunk sequence
`[(0, 1), (2, 3), (1, 1)]` starting from `nextStart = 0`. -/
theorem playback_starts_gapless_witness :
    (∀ c ∈ ([(0, 1), (2, 3), (1, 1)] : List (ℚ × ℚ)), 0 ≤ c.2)
      ∧ List.Chain' (fun a b => a.1 + a.2 ≤ b.1 ∧ a.1 ≤ b.1)
          (schedPairs 0 [(0, 1), (2, 3), (1, 1)]) :=
  ⟨by decide, playback_starts_gapless 0 [(0, 1), (2, 3), (1, 1)] (by decide)⟩

/-- Claim C8: `scheduleTask` is idempotent in both executors — applying the
same `scheduleTask` call twice in sequence produces exactly the state and
result of applying it once; concretely, scheduling "Report" on "2025-01-01"
once puts `t1` in that date's entry exactly once, and scheduling it again
changes nothing. -/
theorem scheduleTask_idempotent :
    (∀ (i : String) (a : Args) (st : ExecState),
        execCallFull ⟨i, "scheduleTask", a⟩ ((execCallFull ⟨i, "scheduleTask", a⟩ st).1)
          = execCallFull ⟨i, "scheduleTask", a⟩ st
        ∧ execCallApp ⟨i, "scheduleTask", a⟩ ((execCallApp ⟨i, "scheduleTask", a⟩ st).1)
          = execCallApp ⟨i, "scheduleTask", a⟩ st)
      ∧ calGet (execCallFull schedReport stAlpha).1.calendar "2025-01-01" = some ["t1"]
      ∧ calGet (execCallFull schedReport ((execCallFull schedReport stAlpha).1)).1.calendar
          "2025-01-01" = some ["t1"]
      ∧ ((calGet (execCallFull schedReport ((execCallFull schedReport stAlpha).1)).1.calendar
            "2025-01-01").getD []).count "t1" = 1 :=
  ⟨fun i a st => ⟨schedFull_idem i a st, schedApp_idem i a st⟩, by decide, by decide, by decide⟩

/-! ### Audio codec lemmas and claim C9 -/

theorem charSextet_sextetChar : ∀ n < 64, charSextet (sextetChar n) = n := by decide
theorem sextetChar_ne_pad : ∀ n < 64, sextetChar n ≠ '=' := by decide

theorem b64_roundtrip : ∀ (bs : List Nat), (∀ b ∈ bs, b < 256) → b64decode (b64encode bs) = bs
  | [], _ => rfl
  | [b1], h => by
    have h1 : b1 < 256 := h b1 (by simp)
    have e1 := charSextet_sextetChar (b1 / 4) (by omega)
    have e2 := charSextet_sextetChar ((b1 % 4) * 16) (by omega)
    simp only [b64encode, b64decode, Char.reduceEq, reduceIte, e1, e2, List.cons.injEq, and_true]
    omega
  | [b1, b2], h => by
    have h1 : b1 < 256 := h b1 (by simp)
    have h2 : b2 < 256 := h b2 (by simp)
    have n3 : sextetChar ((b2 % 16) * 4) ≠ '=' := sextetChar_ne_pad _ (by omega)
    have e1 := charSextet_sextetChar (b1 / 4) (by omega)
    have e2 := charSextet_sextetChar ((b1 % 4) * 16 + b2 / 16) (by omega)
    have e3 := charSextet_sextetChar ((b2 % 16) * 4) (by omega)
    simp only [b64encode, b64decode, Char.reduceEq, reduceIte, n3, if_false, e1, e2, e3,
      List.cons.injEq, and_true]
    constructor <;> omega
  | b1 :: b2 :: b3 :: rest, h => by
    have h1 : b1 < 256 := h b1 (by simp)
    have h2 : b2 < 256 := h b2 (by simp)
    have h3 : b3 < 256 := h b3 (by simp)
    have ih := b64_roundtrip rest (fun b hb => h b (by simp [hb]))
    have n3 : sextetChar ((b2 % 16) * 4 + b3 / 64) ≠ '=' := sextetChar_ne_pad _ (by omega)
    have n4 : sextetChar (b3 % 64) ≠ '=' := sextetChar_ne_pad _ (by omega)
    have e1 := charSextet_sextetChar (b1 / 4) (by omega)
    have e2 := charSextet_sextetChar ((b1 % 4) * 16 + b2 / 16) (by omega)
    have e3 := charSextet_sextetChar ((b2 % 16) * 4 + b3 / 64) (by omega)
    have e4 := charSextet_sextetChar (b3 % 64) (by omega)
    simp only [b64encode, b64decode, List.cons_append, n3, n4, if_false, e1, e2, e3, e4, ih,
      List.cons.injEq, and_true]
    refine ⟨by omega, by omega, by omega⟩

theorem encodeSample_range (x : ℚ) : -32768 ≤ encodeSample x ∧ encodeSample x ≤ 32767 := by
  unfold encodeSample toInt16
  dsimp only
  constructor <;> (split <;> omega)

theorem int16ToBytes_lt (v : Int) : ∀ b ∈ int16ToBytes v, b < 256 := by
  intro b hb
  simp only [int16ToBytes, List.mem_cons, List.not_mem_nil, or_false] at hb
  rcases hb with h | h <;> omega

theorem sampleBytes_lt (samples : List ℚ) : ∀ b ∈ sampleBytes samples, b < 256 := by
  intro b hb
  simp only [sampleBytes, List.mem_flatten, List.mem_map] at hb
  obtain ⟨l, ⟨x, hx, rfl⟩, hbl⟩ := hb
  exact int16ToBytes_lt _ b hbl

theorem bytesToInt16_cons (v : Int) (rest : List Nat) (h1 : -32768 ≤ v) (h2 : v ≤ 32767) :
    bytesToInt16 (int16ToBytes v ++ rest) = v :: bytesToInt16 rest := by
  simp only [int16ToBytes, List.cons_append, List.nil_append, bytesToInt16]
  congr 1
  dsimp only
  split <;> omega

theorem bytesToInt16_sampleBytes (samples : List ℚ) :
    bytesToInt16 (sampleBytes samples) = samples.map encodeSample := by
  induction samples with
  | nil => rfl
  | cons x xs ih =>
    have hr := encodeSample_range x
    simp only [sampleBytes, List.map_cons, List.flatten_cons] at ih ⊢
    rw [bytesToInt16_cons _ _ hr.1 hr.2, ih]

theorem jsTrunc_err (q : ℚ) : |q - (jsTrunc q : ℚ)| ≤ 1 := by
  unfold jsTrunc
  split
  · have ha := Int.floor_le q
    have hb := Int.lt_floor_add_one q
    rw [abs_le]
    constructor <;> linarith
  · have ha := Int.le_ceil q
    have hb := Int.ceil_lt_add_one q
    rw [abs_le]
    constructor <;> linarith

theorem jsTrunc_range (q : ℚ) (hlo : -32768 ≤ q) (hhi : q < 32768) :
    -32768 ≤ jsTrunc q ∧ jsTrunc q ≤ 32767 := by
  unfold jsTrunc
  split
  case isTrue hq =>
    have hn : (0 : Int) ≤ ⌊q⌋ := Int.floor_nonneg.mpr hq
    have hub : ⌊q⌋ < 32768 := by
      rw [Int.floor_lt]
      exact_mod_cast hhi
    omega
  case isFalse hq =>
    push_neg at hq
    have hub : ⌈q⌉ ≤ 0 := Int.ceil_le.mpr (by exact_mod_cast le_of_lt hq)
    have hlb : (-32768 : ℚ) ≤ (⌈q⌉ : ℚ) := le_trans hlo (Int.le_ceil q)
    have hlb2 : (-32768 : Int) ≤ ⌈q⌉ := by exact_mod_cast hlb
    omega

theorem toInt16_small (n : Int) (h1 : -32768 ≤ n) (h2 : n ≤ 32767) : toInt16 n = n := by
  unfold toInt16
  dsimp only
  split <;> omega

theorem encodeSample_quant (x : ℚ) (hlo : -1 ≤ x) (hhi : x < 1) :
    |x - (encodeSample x : ℚ) / 32768| ≤ 1 / 32768 := by
  have hr := jsTrunc_range (x * 32768) (by linarith) (by linarith)
  have herr := jsTrunc_err (x * 32768)
  have he : encodeSample x = jsTrunc (x * 32768) := toInt16_small _ hr.1 hr.2
  rw [he]
  have hx : x - (jsTrunc (x * 32768) : ℚ) / 32768 = (x * 32768 - jsTrunc (x * 32768)) / 32768 := by
    ring
  rw [hx, abs_div, abs_of_pos (by norm_num : (0 : ℚ) < 32768),
    div_le_div_iff₀ (by norm_num) (by norm_num)]
  nlinarith [herr]

theorem codec_decoded_eq (samples : List ℚ) :
    decodeAudioData (decodeB64 (createBlob samples).data)
      = samples.map (fun x => (encodeSample x : ℚ) / 32768) := by
  unfold createBlob decodeB64 decodeAudioData
  dsimp only
  rw [b64_roundtrip _ (sampleBytes_lt samples), bytesToInt16_sampleBytes]
  simp

theorem encodeSample_one : encodeSample 1 = -32768 := by
  unfold encodeSample jsTrunc toInt16
  norm_num

/-- Claim C9 (amended): for every sample sequence with all values in the
half-open interval [-1, 1), decoding the encoded base64 PCM (mono) yields a
sequence of the same length in which every sample differs from the original by
at most the 16-bit quantization step 1/32768; the decoded sequence is exactly
the per-sample quantization of the input. (At the included right endpoint +1
the claim fails: the int16 conversion wraps, see the counterexample.) -/
theorem codec_roundtrip_quantization (samples : List ℚ) (h : ∀ x ∈ samples, -1 ≤ x ∧ x < 1) :
    decodeAudioData (decodeB64 (createBlob samples).data)
        = samples.map (fun x => (encodeSample x : ℚ) / 32768)
      ∧ (decodeAudioData (decodeB64 (createBlob samples).data)).length = samples.length
      ∧ List.Forall₂ (fun x y => |x - y| ≤ 1 / 32768) samples
          (decodeAudioData (decodeB64 (createBlob samples).data)) := by
  have key := codec_decoded_eq samples
  refine ⟨key, by rw [key, List.length_map], ?_⟩
  rw [key, List.forall₂_map_right_iff, List.forall₂_same]
  intro x hx
  exact encodeSample_quant x (h x hx).1 (h x hx).2

/-- Witness for C9 at the concrete sample sequence [1/2, -1/3, 0]. -/
theorem codec_roundtrip_quantization_witness :
    (∀ x ∈ ([(1 : ℚ)/2, -(1 : ℚ)/3, 0] : List ℚ), -1 ≤ x ∧ x < 1)
      ∧ List.Forall₂ (fun x y => |x - y| ≤ 1 / 32768) [(1 : ℚ)/2, -(1 : ℚ)/3, 0]
          (decodeAudioData (decodeB64 (createBlob [(1 : ℚ)/2, -(1 : ℚ)/3, 0]).data)) :=
  ⟨by norm_num, (codec_roundtrip_quantization [(1 : ℚ)/2, -(1 : ℚ)/3, 0] (by norm_num)).2.2⟩

/-- Claim C9 counterexample: the sample value 1 lies in the claimed interval
[-1, 1], yet `decode(encode([1]))` is `[-1]`: the conversion
`int16[i] = 1 * 32768` wraps 32768 to -32768, an error of 2, far above the
quantization step 1/32768. -/
theorem codec_roundtrip_fails_at_one :
    ((-1 : ℚ) ≤ 1 ∧ (1 : ℚ) ≤ 1)
      ∧ decodeAudioData (decodeB64 (createBlob [(1 : ℚ)]).data) = [-1]
      ∧ ¬ |(1 : ℚ) - (-1)| ≤ 1 / 32768 := by
  have key := codec_decoded_eq [(1 : ℚ)]
  rw [List.map_cons, List.map_nil, encodeSample_one] at key
  refine ⟨⟨by norm_num, le_refl 1⟩, ?_, by norm_num⟩
  rw [key]
  norm_num

end KevinCalendar
